import Mathlib

/-
Verification of the rust-gcode library: a fixed-point 3-axis position type
with per-axis optionality (src/position.rs) and a streaming G-code move
writer (src/writer.rs).

Modelling conventions.

Floating point: every finite f64 is a rational number, so f64 values are
modelled as ℚ.  The code only multiplies and divides f64 values by the
power of two 65536 = 2^16; such operations are exact in f64 arithmetic
(no rounding), so modelling them as exact rational operations is faithful
for all finite inputs.  An input so large that the f64 product overflows
to infinity compares above the range bound and errors, which coincides
with the model, where the exact product also lies outside the bound.
NaN inputs are outside the model (ℚ has no NaN).

Casts: in Rust, i64::MAX as f64 rounds up to 2^63 = 9223372036854775808
and i64::MIN as f64 is exactly -2^63, so the range guard of f64_to_fixed
compares the scaled value against -2^63 and +2^63 (not against the true
i64 bounds).  A float-to-int cast in Rust truncates toward zero and
saturates at the target bounds; inside the guard the only value needing
saturation is exactly 2^63, which saturates to i64::MAX, modelled by the
min with 9223372036854775807.  Truncation toward zero of an exact
rational n / d is Int.tdiv n d.

Machine integers: i64 and i128 values are modelled as Int.  Where the
source can overflow i64 (the plain + and - of the Add and Sub impls) the
model reduces modulo 2^64 into the signed range (wrap64), the semantics
of a Rust release build; a debug build panics there, and under neither
semantics is the stored value the mathematical sum once it leaves the
i64 range.  The i128 intermediates of Mul and Div cannot overflow i128
for i64-bounded operands, so exact Int arithmetic models them faithfully;
the theorems state the i128 bound explicitly.
-/

inductive GCodeError where
  | IOError
  | OutOfRangeError
deriving DecidableEq

/-- A Rust panic, modelled as an exceptional result.  The Mul and Div
impls panic rather than returning a recoverable error; division by zero
panics with a distinct message produced by the i128 division itself. -/
inductive RustPanic where
  | overflow
  | divByZero
deriving DecidableEq

deriving instance DecidableEq for Except

structure GCodePosition where
  x : Option Int
  y : Option Int
  z : Option Int
deriving DecidableEq

namespace GCodePosition

/-- Coordinate values are multiplied by this value prior to being stored,
the constant FIXED_SCALE = 1 << 16 of the source. -/
def FIXED_SCALE : Int := 65536

/-- Model of GCodePosition::f64_to_fixed.  The input f64 is the rational
q; the source computes val = q * 65536 in f64 (exact), compares it with
i64::MAX as f64 = 2^63 and i64::MIN as f64 = -2^63, and on success casts
with truncation toward zero, saturating at i64::MAX.  The comparisons and
the truncation are carried out on the exact fraction
(q.num * 65536) / q.den to keep the definition kernel-computable. -/
def f64_to_fixed (q : ℚ) : Except GCodeError Int :=
  if 9223372036854775808 * (q.den : Int) < q.num * 65536 ∨
      q.num * 65536 < -9223372036854775808 * (q.den : Int) then
    Except.error GCodeError.OutOfRangeError
  else
    Except.ok (min ((q.num * 65536).tdiv (q.den : Int)) 9223372036854775807)

/-- One field of GCodePosition::from_f64: a present input is converted
with f64_to_fixed and the question-mark operator propagates the error. -/
def convAxis (o : Option ℚ) : Except GCodeError (Option Int) :=
  match o with
  | some v =>
    match f64_to_fixed v with
    | Except.error e => Except.error e
    | Except.ok n => Except.ok (some n)
  | none => Except.ok none

/-- Model of GCodePosition::from_f64: the three fields are converted in
the order x, y, z, the first failing conversion aborting the whole call. -/
def from_f64 (x y z : Option ℚ) : Except GCodeError GCodePosition :=
  match convAxis x with
  | Except.error e => Except.error e
  | Except.ok xv =>
    match convAxis y with
    | Except.error e => Except.error e
    | Except.ok yv =>
      match convAxis z with
      | Except.error e => Except.error e
      | Except.ok zv => Except.ok { x := xv, y := yv, z := zv }

/-- Model of GCodePosition::from_f64_full. -/
def from_f64_full (x y z : ℚ) : Except GCodeError GCodePosition :=
  from_f64 (some x) (some y) (some z)

/-- Model of GCodePosition::from_raw. -/
def from_raw (x y z : Option Int) : GCodePosition :=
  { x := x, y := y, z := z }

/-- Model of GCodePosition::from_raw_full. -/
def from_raw_full (x y z : Int) : GCodePosition :=
  from_raw (some x) (some y) (some z)

/-- Model of GCodePosition::x_f64: the stored integer divided by 65536.
The i64-to-f64 cast followed by the exact division by 2^16 is modelled
by the exact rational quotient; the cast itself rounds only for stored
magnitudes of at least 2^53, where the textual and round-trip claims
below do not depend on the value being exact. -/
def x_f64 (p : GCodePosition) : Option ℚ :=
  p.x.map (fun val => Rat.divInt val FIXED_SCALE)

/-- Model of GCodePosition::y_f64. -/
def y_f64 (p : GCodePosition) : Option ℚ :=
  p.y.map (fun val => Rat.divInt val FIXED_SCALE)

/-- Model of GCodePosition::z_f64. -/
def z_f64 (p : GCodePosition) : Option ℚ :=
  p.z.map (fun val => Rat.divInt val FIXED_SCALE)

/-- Model of GCodePosition::as_f64. -/
def as_f64 (p : GCodePosition) : Option ℚ × Option ℚ × Option ℚ :=
  (p.x.map (fun val => Rat.divInt val FIXED_SCALE),
   p.y.map (fun val => Rat.divInt val FIXED_SCALE),
   p.z.map (fun val => Rat.divInt val FIXED_SCALE))

/-- Two complement wrap of an unbounded integer into the i64 range, the
release-profile semantics of Rust i64 addition and subtraction. -/
def wrap64 (n : Int) : Int :=
  Int.emod (n + 9223372036854775808) 18446744073709551616 - 9223372036854775808

/-- Model of the Add impl: per axis, the values combine only when both
sides are present, and otherwise the left-hand field passes through. -/
def add (a b : GCodePosition) : GCodePosition :=
  { x := match a.x, b.x with
         | some l, some r => some (wrap64 (l + r))
         | _, _ => a.x,
    y := match a.y, b.y with
         | some l, some r => some (wrap64 (l + r))
         | _, _ => a.y,
    z := match a.z, b.z with
         | some l, some r => some (wrap64 (l + r))
         | _, _ => a.z }

/-- Model of the Sub impl, mirroring add with subtraction. -/
def sub (a b : GCodePosition) : GCodePosition :=
  { x := match a.x, b.x with
         | some l, some r => some (wrap64 (l - r))
         | _, _ => a.x,
    y := match a.y, b.y with
         | some l, some r => some (wrap64 (l - r))
         | _, _ => a.y,
    z := match a.z, b.z with
         | some l, some r => some (wrap64 (l - r))
         | _, _ => a.z }

/-- The closure mul_fixed of the Mul impl: the i128 product of the stored
value and the converted scalar is rescaled by a truncating division by
FIXED_SCALE and range-checked against the exact i64 bounds; an
out-of-range result panics. -/
def mulFixed (fixed val : Int) : Except RustPanic Int :=
  if 9223372036854775807 < (val * fixed).tdiv 65536 ∨
      (val * fixed).tdiv 65536 < -9223372036854775808 then
    Except.error RustPanic.overflow
  else
    Except.ok ((val * fixed).tdiv 65536)

/-- The closure div_fixed of the Div impl: the stored value is widened,
multiplied by FIXED_SCALE and divided by the converted scalar with a
truncating i128 division, then range-checked exactly as mul_fixed.  A
zero divisor makes the i128 division itself panic, before the range
check can run. -/
def divFixed (fixed val : Int) : Except RustPanic Int :=
  if fixed = 0 then Except.error RustPanic.divByZero
  else
    if 9223372036854775807 < (val * 65536).tdiv fixed ∨
        (val * 65536).tdiv fixed < -9223372036854775808 then
      Except.error RustPanic.overflow
    else
      Except.ok ((val * 65536).tdiv fixed)

/-- Option.map of a closure that can panic: an absent axis is left
untouched, a present axis propagates the panic of the closure. -/
def mapAxis (f : Int → Except RustPanic Int) (o : Option Int) :
    Except RustPanic (Option Int) :=
  match o with
  | some v =>
    match f v with
    | Except.error e => Except.error e
    | Except.ok r => Except.ok (some r)
  | none => Except.ok none

/-- Model of the Mul impl for a f64 scalar: the scalar is converted with
f64_to_fixed, a failed conversion panics, and each axis is mapped through
mul_fixed in the field order x, y, z. -/
def mul (p : GCodePosition) (rhs : ℚ) : Except RustPanic GCodePosition :=
  match f64_to_fixed rhs with
  | Except.error _ => Except.error RustPanic.overflow
  | Except.ok fixed =>
    match mapAxis (mulFixed fixed) p.x with
    | Except.error e => Except.error e
    | Except.ok xv =>
      match mapAxis (mulFixed fixed) p.y with
      | Except.error e => Except.error e
      | Except.ok yv =>
        match mapAxis (mulFixed fixed) p.z with
        | Except.error e => Except.error e
        | Except.ok zv => Except.ok { x := xv, y := yv, z := zv }

/-- Model of the Div impl for a f64 scalar, as mul with div_fixed. -/
def div (p : GCodePosition) (rhs : ℚ) : Except RustPanic GCodePosition :=
  match f64_to_fixed rhs with
  | Except.error _ => Except.error RustPanic.overflow
  | Except.ok fixed =>
    match mapAxis (divFixed fixed) p.x with
    | Except.error e => Except.error e
    | Except.ok xv =>
      match mapAxis (divFixed fixed) p.y with
      | Except.error e => Except.error e
      | Except.ok yv =>
        match mapAxis (divFixed fixed) p.z with
        | Except.error e => Except.error e
        | Except.ok zv => Except.ok { x := xv, y := yv, z := zv }

/-- The stored fields of a position lie in the i64 range; in Rust this
holds by the field type i64 and in the model it becomes a predicate. -/
def inI64 (p : GCodePosition) : Prop :=
  (∀ v ∈ p.x, -9223372036854775808 ≤ v ∧ v ≤ 9223372036854775807) ∧
  (∀ v ∈ p.y, -9223372036854775808 ≤ v ∧ v ≤ 9223372036854775807) ∧
  (∀ v ∈ p.z, -9223372036854775808 ≤ v ∧ v ≤ 9223372036854775807)

end GCodePosition

/-- The options bag of lib.rs, carrying the optional feed rate (a f64,
modelled as ℚ). -/
structure GCodeOptions where
  feed_rate : Option ℚ

/-
Decimal formatting.  Rust formats a f64 with a fixed precision by
rounding the exact decimal value of the float to that many fractional
digits, ties to even, printing the sign of negative values, the integer
part without padding, a point, and exactly prec fractional digits.  The
model renders the exact rational value the same way; for axis values the
rational equals the printed float exactly whenever the stored magnitude
is below 2^53 (the i64-to-f64 cast is exact there), and the shape of the
output (token order, digit counts) is the same for all magnitudes.
-/

/-- Round n / d to the nearest integer, ties to even, for d positive. -/
def roundHalfEven (n d : Nat) : Nat :=
  let q := n / d
  let r := n % d
  if 2 * r < d then q
  else if d < 2 * r then q + 1
  else if q % 2 = 0 then q else q + 1

/-- Decimal digits of a natural number, most significant first, via
structural recursion on a fuel argument. -/
def natDigitsAux : Nat → Nat → List Char
  | 0, _ => []
  | fuel + 1, n =>
    if n < 10 then [Nat.digitChar n]
    else natDigitsAux fuel (n / 10) ++ [Nat.digitChar (n % 10)]

/-- Decimal rendering of a natural number. -/
def natNumStr (n : Nat) : String :=
  String.mk (natDigitsAux (n + 1) n)

/-- Exactly prec decimal digits of a natural number below 10 ^ prec,
most significant first, zero-padded on the left. -/
def fracDigits (prec r : Nat) : String :=
  String.mk ((List.range prec).map
    (fun i => Nat.digitChar (r / 10 ^ (prec - 1 - i) % 10)))

/-- Fixed-precision decimal rendering of a rational, the model of the
Rust float formatting with a precision: sign for negative values, the
integer part, a point, and exactly prec fractional digits, the value
rounded to prec fractional digits with ties to even. -/
def fmtDec (prec : Nat) (q : ℚ) : String :=
  let scaled := roundHalfEven (q.num.natAbs * 10 ^ prec) q.den
  (if q.num < 0 then "-" else "") ++
    natNumStr (scaled / 10 ^ prec) ++ "." ++ fracDigits prec (scaled % 10 ^ prec)

/-
The writer.  The destination sink is the abstract boundary dependency: a
dyn Write object accepting formatted text, whose write calls may each
fail with an I/O error.  The model records the text written so far, an
oracle saying whether the n-th write call of the sink succeeds, the
number of write calls made, and whether a flush succeeds.  A failing
write call is modelled as writing nothing, one legitimate behaviour of a
failed Rust write.
-/

structure Sink where
  written : String
  okAt : Nat → Bool
  calls : Nat
  flushOk : Bool

/-- One write of a chunk of text to the sink, the model of a single
formatted write call on the dyn Write destination. -/
def writeS (st : Sink) (chunk : String) : Except GCodeError Unit × Sink :=
  if st.okAt st.calls then
    (Except.ok (), { st with written := st.written ++ chunk, calls := st.calls + 1 })
  else
    (Except.error GCodeError.IOError, { st with calls := st.calls + 1 })

/-- Early-return sequencing of two fallible writes: the question-mark
operator of the source aborts the function on the first error. -/
def step (r : Except GCodeError Unit × Sink)
    (k : Sink → Except GCodeError Unit × Sink) : Except GCodeError Unit × Sink :=
  match r with
  | (Except.error e, st) => (Except.error e, st)
  | (Except.ok _, st) => k st

/-- One axis of GCodeWriter::move_to: a present value is written as one
formatted chunk of a space, the axis letter and the value at precision
4; an absent value writes nothing. -/
def writeAxis (st : Sink) (letter : String) (v : Option ℚ) :
    Except GCodeError Unit × Sink :=
  match v with
  | some val => writeS st (" " ++ letter ++ fmtDec 4 val)
  | none => (Except.ok (), st)

/-- The feed part of GCodeWriter::move_to: written only when options are
supplied and carry a feed rate, at precision 2. -/
def writeFeed (st : Sink) (options : Option GCodeOptions) :
    Except GCodeError Unit × Sink :=
  match options with
  | some o =>
    match o.feed_rate with
    | some fr => writeS st (" F" ++ fmtDec 2 fr)
    | none => (Except.ok (), st)
  | none => (Except.ok (), st)

/-- Model of GCodeWriter::move_to: the code G00 or G01, then the X, Y, Z
axis chunks for present axes, then the feed chunk, each chunk a single
write call sequenced with early return, and no trailing line
terminator. -/
def move_to (st : Sink) (pos : GCodePosition) (options : Option GCodeOptions)
    (fast : Bool) : Except GCodeError Unit × Sink :=
  step (writeS st (if fast then "G00" else "G01")) (fun st =>
    step (writeAxis st "X" (GCodePosition.as_f64 pos).1) (fun st =>
      step (writeAxis st "Y" (GCodePosition.as_f64 pos).2.1) (fun st =>
        step (writeAxis st "Z" (GCodePosition.as_f64 pos).2.2) (fun st =>
          writeFeed st options))))

/-- Model of GCodeWriter::flush: an error of the underlying flush is
mapped to IOError, success is passed through. -/
def flushW (st : Sink) : Except GCodeError Unit :=
  if st.flushOk = false then Except.error GCodeError.IOError
  else Except.ok ()

/-- Model of the GCodeWriter struct: sole owner of its destination. -/
structure GCodeWriter where
  writer : Sink

/-- Model of GCodeWriter::new: the constructor returns a Result whose
error case has no producing branch. -/
def GCodeWriter.new (s : Sink) : Except GCodeError GCodeWriter :=
  Except.ok { writer := s }

/-
Grammar-side token functions, used to state what move_to emits.
-/

/-- The axis token of the emitted grammar: empty for an absent axis, a
single leading space, the axis letter and the value at 4 fractional
digits for a present one. -/
def axisToken (letter : String) (v : Option ℚ) : String :=
  match v with
  | some val => " " ++ letter ++ fmtDec 4 val
  | none => ""

/-- The feed token of the emitted grammar: empty unless options carry a
feed rate. -/
def feedToken (options : Option GCodeOptions) : String :=
  match options with
  | some o =>
    match o.feed_rate with
    | some fr => " F" ++ fmtDec 2 fr
    | none => ""
  | none => ""

/-- The chunk sequence move_to attempts to write, in order. -/
def moveChunks (pos : GCodePosition) (options : Option GCodeOptions)
    (fast : Bool) : List String :=
  [(if fast then "G00" else "G01"),
   axisToken "X" (GCodePosition.as_f64 pos).1,
   axisToken "Y" (GCodePosition.as_f64 pos).2.1,
   axisToken "Z" (GCodePosition.as_f64 pos).2.2,
   feedToken options]

/-- Concatenation of a list of chunks. -/
def concatT : List String → String
  | [] => ""
  | t :: ts => t ++ concatT ts

/-- A sink whose writes all succeed, starting empty. -/
def sinkAllOk : Sink :=
  { written := "", okAt := fun _ => true, calls := 0, flushOk := true }

/-- A sink whose first write succeeds and whose later writes fail,
starting empty. -/
def sinkFailSecond : Sink :=
  { written := "", okAt := fun n => n == 0, calls := 0, flushOk := true }

/-
Specification-side predicates, written from the words of the claims so
that the theorems do not merely restate the definitions above.
-/

/-- Truncation toward zero of a rational, stated through the floor and
ceiling functions of the specification language. -/
def specTrunc (q : ℚ) : Int :=
  if 0 ≤ q then ⌊q⌋ else ⌈q⌉

/-- A value fits the signed 64-bit range. -/
def resFits (r : Int) : Prop :=
  -9223372036854775808 ≤ r ∧ r ≤ 9223372036854775807

/-- The position has at least one present axis. -/
def anyPresent (p : GCodePosition) : Prop :=
  p.x.isSome = true ∨ p.y.isSome = true ∨ p.z.isSome = true

/-- Precondition of scalar multiplication: the scalar conversion
succeeds and every rescaled per-axis result fits in 64 bits. -/
def mulOKPre (p : GCodePosition) (q : ℚ) : Prop :=
  ∃ f, GCodePosition.f64_to_fixed q = Except.ok f ∧
    (∀ v ∈ p.x, resFits ((v * f).tdiv 65536)) ∧
    (∀ v ∈ p.y, resFits ((v * f).tdiv 65536)) ∧
    (∀ v ∈ p.z, resFits ((v * f).tdiv 65536))

/-- Precondition of scalar division: the scalar conversion succeeds and,
for every present axis, the converted scalar is nonzero and the rescaled
per-axis quotient fits in 64 bits. -/
def divOKPre (p : GCodePosition) (q : ℚ) : Prop :=
  ∃ f, GCodePosition.f64_to_fixed q = Except.ok f ∧
    (∀ v ∈ p.x, f ≠ 0 ∧ resFits ((v * 65536).tdiv f)) ∧
    (∀ v ∈ p.y, f ≠ 0 ∧ resFits ((v * 65536).tdiv f)) ∧
    (∀ v ∈ p.z, f ≠ 0 ∧ resFits ((v * 65536).tdiv f))

/-- An optionally-present float input whose scaled value passes the
range guard of the conversion: the scaled value is between the f64
images of i64::MIN and i64::MAX, which are the two powers -2^63 and
2^63. -/
def axisOK (o : Option ℚ) : Prop :=
  ∀ v ∈ o, -(9223372036854775808 : ℚ) ≤ v * 65536 ∧
    v * 65536 ≤ (9223372036854775808 : ℚ)

/-- The per-axis combination rule of addition and subtraction, written
from the words of the claim: combine only when both sides are present,
otherwise pass the left side through verbatim, so the presence pattern
of the result equals that of the left operand; the combined value is
the wrapped machine result, equal to the mathematical one whenever that
fits in 64 bits. -/
def axisRule (l r res : Option Int) (f : Int → Int → Int) : Prop :=
  res.isSome = l.isSome ∧
  (∀ lv ∈ l, ∀ rv ∈ r, res = some (GCodePosition.wrap64 (f lv rv))) ∧
  (r = none → res = l) ∧
  (l = none → res = none)

/-- The function f, applied to a sink, attempts to write exactly the
chunks of toks in order: on any outcome the written text grows by the
concatenation of the first n chunks for some n, and on success by the
concatenation of all of them. -/
def writesChunks (f : Sink → Except GCodeError Unit × Sink)
    (toks : List String) : Prop :=
  ∀ st, (∃ n, n ≤ toks.length ∧
          (f st).2.written = st.written ++ concatT (toks.take n)) ∧
        ((f st).1 = Except.ok () →
          (f st).2.written = st.written ++ concatT toks)


/-
Lemmas.  First the bridge between the integer arithmetic of the
computable definitions and the rational statements of the claims.
-/

lemma den_cast_pos (q : ℚ) : (0 : ℚ) < (q.den : ℚ) := by
  exact_mod_cast q.den_pos

lemma scaled_cast (q : ℚ) :
    ((q.num * 65536 : ℤ) : ℚ) / (q.den : ℚ) = q * 65536 := by
  have h : ((q.num : ℚ)) / ((q.den : ℚ)) = q := Rat.num_div_den q
  push_cast
  rw [mul_div_right_comm, h]

lemma lt_scaled_iff (q : ℚ) (M : ℤ) :
    M * (q.den : ℤ) < q.num * 65536 ↔ (M : ℚ) < q * 65536 := by
  rw [← scaled_cast q, lt_div_iff₀ (den_cast_pos q)]
  norm_cast

lemma scaled_lt_iff (q : ℚ) (M : ℤ) :
    q.num * 65536 < M * (q.den : ℤ) ↔ q * 65536 < (M : ℚ) := by
  rw [← scaled_cast q, div_lt_iff₀ (den_cast_pos q)]
  norm_cast

lemma le_scaled_iff (q : ℚ) (M : ℤ) :
    M * (q.den : ℤ) ≤ q.num * 65536 ↔ (M : ℚ) ≤ q * 65536 := by
  rw [← scaled_cast q, le_div_iff₀ (den_cast_pos q)]
  norm_cast

lemma scaled_le_iff (q : ℚ) (M : ℤ) :
    q.num * 65536 ≤ M * (q.den : ℤ) ↔ q * 65536 ≤ (M : ℚ) := by
  rw [← scaled_cast q, div_le_iff₀ (den_cast_pos q)]
  norm_cast

lemma tdiv_cast_nonneg (a : ℤ) (d : ℕ) (_hd : 0 < d) (ha : 0 ≤ a) :
    a.tdiv (d : ℤ) = ⌊(a : ℚ) / (d : ℚ)⌋ := by
  rw [Int.tdiv_eq_ediv ha (by exact_mod_cast Nat.zero_le d),
    Rat.floor_intCast_div_natCast]

lemma tdiv_cast_neg (a : ℤ) (d : ℕ) (hd : 0 < d) (ha : a < 0) :
    a.tdiv (d : ℤ) = ⌈(a : ℚ) / (d : ℚ)⌉ := by
  have h1 : a.tdiv (d : ℤ) = -((-a).tdiv (d : ℤ)) := by
    rw [Int.neg_tdiv, neg_neg]
  have h2 : (-a).tdiv (d : ℤ) = ⌊((-a : ℤ) : ℚ) / (d : ℚ)⌋ :=
    tdiv_cast_nonneg (-a) d hd (by linarith)
  have h3 : (((-a : ℤ)) : ℚ) / (d : ℚ) = -((a : ℚ) / (d : ℚ)) := by
    push_cast
    ring
  rw [h1, h2, h3, Int.floor_neg, neg_neg]

lemma tdiv_le_of_cast_le (a : ℤ) (d : ℕ) (hd : 0 < d) (M : ℤ)
    (h : (a : ℚ) / (d : ℚ) ≤ (M : ℚ)) : a.tdiv (d : ℤ) ≤ M := by
  rcases le_or_lt 0 a with ha | ha
  · rw [tdiv_cast_nonneg a d hd ha]
    have h2 := Int.floor_le_floor h
    rwa [Int.floor_intCast] at h2
  · rw [tdiv_cast_neg a d hd ha]
    have h2 := Int.ceil_le_ceil h
    rwa [Int.ceil_intCast] at h2

lemma le_tdiv_of_cast_le (a : ℤ) (d : ℕ) (hd : 0 < d) (M : ℤ)
    (h : (M : ℚ) ≤ (a : ℚ) / (d : ℚ)) : M ≤ a.tdiv (d : ℤ) := by
  rcases le_or_lt 0 a with ha | ha
  · rw [tdiv_cast_nonneg a d hd ha]
    have h2 := Int.floor_le_floor h
    rwa [Int.floor_intCast] at h2
  · rw [tdiv_cast_neg a d hd ha]
    have h2 := Int.ceil_le_ceil h
    rwa [Int.ceil_intCast] at h2

lemma tdiv_cast_close (a : ℤ) (d : ℕ) (hd : 0 < d) :
    |((a.tdiv (d : ℤ) : ℤ) : ℚ) - (a : ℚ) / (d : ℚ)| < 1 := by
  rcases le_or_lt 0 a with ha | ha
  · rw [tdiv_cast_nonneg a d hd ha]
    have h1 : ((⌊(a : ℚ) / (d : ℚ)⌋ : ℤ) : ℚ) ≤ (a : ℚ) / (d : ℚ) :=
      Int.floor_le _
    have h2 : (a : ℚ) / (d : ℚ) < ⌊(a : ℚ) / (d : ℚ)⌋ + 1 :=
      Int.lt_floor_add_one _
    rw [abs_lt]
    constructor <;> linarith
  · rw [tdiv_cast_neg a d hd ha]
    have h1 : (a : ℚ) / (d : ℚ) ≤ ((⌈(a : ℚ) / (d : ℚ)⌉ : ℤ) : ℚ) :=
      Int.le_ceil _
    have h2 : ((⌈(a : ℚ) / (d : ℚ)⌉ : ℤ) : ℚ) < (a : ℚ) / (d : ℚ) + 1 :=
      Int.ceil_lt_add_one _
    rw [abs_lt]
    constructor <;> linarith

lemma tdiv_eq_zero_of_small (a : ℤ) (d : ℕ) (hd : 0 < d)
    (h : |(a : ℚ) / (d : ℚ)| < 1) : a.tdiv (d : ℤ) = 0 := by
  rw [abs_lt] at h
  have hd2 : (0 : ℚ) < (d : ℚ) := by exact_mod_cast hd
  rcases le_or_lt 0 a with ha | ha
  · rw [tdiv_cast_nonneg a d hd ha, Int.floor_eq_zero_iff]
    refine ⟨?_, h.2⟩
    exact div_nonneg (by exact_mod_cast ha) (le_of_lt hd2)
  · rw [tdiv_cast_neg a d hd ha, Int.ceil_eq_zero_iff]
    refine ⟨h.1, ?_⟩
    have ha2 : ((a : ℚ)) < 0 := by exact_mod_cast ha
    exact le_of_lt (div_neg_of_neg_of_pos ha2 hd2)

lemma guard_iff (q : ℚ) :
    (9223372036854775808 * (q.den : ℤ) < q.num * 65536 ∨
      q.num * 65536 < -9223372036854775808 * (q.den : ℤ)) ↔
    ¬(-(9223372036854775808 : ℚ) ≤ q * 65536 ∧
      q * 65536 ≤ (9223372036854775808 : ℚ)) := by
  rw [lt_scaled_iff q 9223372036854775808, scaled_lt_iff q (-9223372036854775808)]
  rw [not_and_or, not_le, not_le]
  push_cast
  exact or_comm

lemma f64_to_fixed_ok_iff (q : ℚ) :
    (∃ f, GCodePosition.f64_to_fixed q = Except.ok f) ↔
      -(9223372036854775808 : ℚ) ≤ q * 65536 ∧
        q * 65536 ≤ (9223372036854775808 : ℚ) := by
  unfold GCodePosition.f64_to_fixed
  by_cases hg : (9223372036854775808 * (q.den : ℤ) < q.num * 65536 ∨
      q.num * 65536 < -9223372036854775808 * (q.den : ℤ))
  · rw [if_pos hg]
    constructor
    · rintro ⟨f, hf⟩
      simp at hf
    · intro h
      exact absurd h ((guard_iff q).mp hg)
  · rw [if_neg hg]
    constructor
    · intro _
      exact not_not.mp ((guard_iff q).not.mp hg)
    · intro _
      exact ⟨_, rfl⟩

lemma f64_to_fixed_ok_val (q : ℚ) (f : Int)
    (h : GCodePosition.f64_to_fixed q = Except.ok f) :
    f = min ((q.num * 65536).tdiv (q.den : ℤ)) 9223372036854775807 := by
  unfold GCodePosition.f64_to_fixed at h
  split at h
  · simp at h
  · simp only [Except.ok.injEq] at h
    exact h.symm

lemma f64_to_fixed_ok_bounds (q : ℚ) (f : Int)
    (h : GCodePosition.f64_to_fixed q = Except.ok f) :
    -9223372036854775808 ≤ f ∧ f ≤ 9223372036854775807 := by
  have hiff := (f64_to_fixed_ok_iff q).mp ⟨f, h⟩
  have hval := f64_to_fixed_ok_val q f h
  constructor
  · rw [hval, le_min_iff]
    refine ⟨?_, by norm_num⟩
    apply le_tdiv_of_cast_le _ _ q.den_pos
    rw [scaled_cast]
    push_cast
    exact hiff.1
  · rw [hval]
    exact min_le_right _ _

lemma f64_to_fixed_small (q : ℚ) (h : |q * 65536| < 1) :
    GCodePosition.f64_to_fixed q = Except.ok 0 := by
  have hb : -(9223372036854775808 : ℚ) ≤ q * 65536 ∧
      q * 65536 ≤ (9223372036854775808 : ℚ) := by
    rw [abs_lt] at h
    constructor <;> linarith [h.1, h.2]
  have hz : (q.num * 65536).tdiv (q.den : ℤ) = 0 := by
    apply tdiv_eq_zero_of_small _ _ q.den_pos
    rw [scaled_cast]
    exact h
  unfold GCodePosition.f64_to_fixed
  rw [if_neg (by rw [guard_iff]; exact not_not_intro hb), hz]
  norm_num

lemma f64_to_fixed_no_clamp (q : ℚ) (f : Int)
    (h : GCodePosition.f64_to_fixed q = Except.ok f)
    (htop : q * 65536 ≤ (9223372036854775807 : ℚ)) :
    f = (q.num * 65536).tdiv (q.den : ℤ) ∧
      |((f : ℤ) : ℚ) - q * 65536| < 1 := by
  have hval := f64_to_fixed_ok_val q f h
  have hle : (q.num * 65536).tdiv (q.den : ℤ) ≤ 9223372036854775807 := by
    apply tdiv_le_of_cast_le _ _ q.den_pos
    rw [scaled_cast]
    push_cast
    exact htop
  have hf : f = (q.num * 65536).tdiv (q.den : ℤ) := by
    rw [hval]
    exact min_eq_left hle
  refine ⟨hf, ?_⟩
  rw [hf]
  have hclose := tdiv_cast_close (q.num * 65536) q.den q.den_pos
  rwa [scaled_cast] at hclose

/-
Lemmas about the writer: what a chain of fallible writes leaves in the
sink.
-/

lemma concatT_append (l₁ l₂ : List String) :
    concatT (l₁ ++ l₂) = concatT l₁ ++ concatT l₂ := by
  induction l₁ with
  | nil =>
    apply String.ext
    simp [concatT, String.data_append]
  | cons h t ih =>
    simp only [List.cons_append, concatT, List.append_eq]
    rw [ih, String.append_assoc]

lemma writesChunks_writeS (c : String) :
    writesChunks (fun st => writeS st c) [c] := by
  intro st
  dsimp only
  unfold writeS
  by_cases h : st.okAt st.calls
  · rw [if_pos h]
    constructor
    · refine ⟨1, by norm_num, ?_⟩
      simp [concatT, String.append_empty]
    · intro _
      simp [concatT, String.append_empty]
  · rw [if_neg h]
    constructor
    · refine ⟨0, by norm_num, ?_⟩
      simp [concatT, String.append_empty]
    · intro hok
      simp at hok

lemma writesChunks_nothing :
    writesChunks (fun st => (Except.ok (), st)) [""] := by
  intro st
  dsimp only
  constructor
  · refine ⟨0, by norm_num, ?_⟩
    simp [concatT, String.append_empty]
  · intro _
    simp [concatT, String.append_empty]

lemma writesChunks_writeAxis (letter : String) (v : Option ℚ) :
    writesChunks (fun st => writeAxis st letter v) [axisToken letter v] := by
  cases v with
  | some val => exact writesChunks_writeS (" " ++ letter ++ fmtDec 4 val)
  | none => exact writesChunks_nothing

lemma writesChunks_writeFeed (options : Option GCodeOptions) :
    writesChunks (fun st => writeFeed st options) [feedToken options] := by
  rcases options with _ | ⟨_ | fr⟩
  · exact writesChunks_nothing
  · exact writesChunks_nothing
  · exact writesChunks_writeS (" F" ++ fmtDec 2 fr)

lemma writesChunks_step {f g : Sink → Except GCodeError Unit × Sink}
    {t₁ t₂ : List String} (hf : writesChunks f t₁) (hg : writesChunks g t₂) :
    writesChunks (fun st => step (f st) g) (t₁ ++ t₂) := by
  intro st
  dsimp only
  obtain ⟨⟨n, hn, hw⟩, hsucc⟩ := hf st
  cases hres : (f st) with
  | mk r st1 =>
    rw [hres] at hw hsucc
    cases r with
    | error e =>
      constructor
      · refine ⟨n, ?_, ?_⟩
        · calc n ≤ t₁.length := hn
            _ ≤ (t₁ ++ t₂).length := by simp
        · rw [show step (Except.error e, st1) g = (Except.error e, st1) from rfl,
            List.take_append_of_le_length hn]
          exact hw
      · intro hok
        rw [show step (Except.error e, st1) g = (Except.error e, st1) from rfl]
          at hok
        simp at hok
    | ok u =>
      cases u
      rw [show step (Except.ok (), st1) g = g st1 from rfl]
      have hw1 : st1.written = st.written ++ concatT t₁ := hsucc rfl
      obtain ⟨⟨m, hm, hwg⟩, hgsucc⟩ := hg st1
      constructor
      · refine ⟨t₁.length + m, ?_, ?_⟩
        · rw [List.length_append]
          exact Nat.add_le_add_left hm _
        · rw [List.take_append, concatT_append, ← String.append_assoc, ← hw1]
          exact hwg
      · intro hok
        rw [concatT_append, ← String.append_assoc, ← hw1]
        exact hgsucc hok

lemma move_to_writes (pos : GCodePosition) (options : Option GCodeOptions)
    (fast : Bool) :
    writesChunks (fun st => move_to st pos options fast)
      (moveChunks pos options fast) := by
  exact writesChunks_step (writesChunks_writeS (if fast then "G00" else "G01"))
    (writesChunks_step (writesChunks_writeAxis "X" (GCodePosition.as_f64 pos).1)
      (writesChunks_step (writesChunks_writeAxis "Y" (GCodePosition.as_f64 pos).2.1)
        (writesChunks_step (writesChunks_writeAxis "Z" (GCodePosition.as_f64 pos).2.2)
          (writesChunks_writeFeed options))))

lemma move_to_allOk_ok (pos : GCodePosition) (options : Option GCodeOptions)
    (fast : Bool) (st : Sink) (h : ∀ n, st.okAt n = true) :
    (move_to st pos options fast).1 = Except.ok () := by
  obtain ⟨sw, sok, sc, sf⟩ := st
  obtain ⟨px, py, pz⟩ := pos
  have h2 : ∀ n, sok n = true := h
  cases px <;> cases py <;> cases pz <;> rcases options with _ | ⟨_ | fr⟩ <;>
    simp [move_to, step, writeS, writeAxis, writeFeed, GCodePosition.as_f64, h2]

/-
Lemmas about the decimal formatting.
-/

lemma str_empty_append (s : String) : "" ++ s = s := by
  apply String.ext
  simp [String.data_append]

lemma digit_ne_newline {c : Char} (h : c.isDigit = true) : c ≠ '\n' := by
  intro heq
  subst heq
  exact absurd h (by decide)

lemma digit_ne_dot {c : Char} (h : c.isDigit = true) : c ≠ '.' := by
  intro heq
  subst heq
  exact absurd h (by decide)

lemma natDigitsAux_digits :
    ∀ (fuel n : Nat), ∀ c ∈ natDigitsAux fuel n, c.isDigit = true := by
  intro fuel
  induction fuel with
  | zero =>
    intro n c hc
    simp [natDigitsAux] at hc
  | succ fuel ih =>
    intro n c hc
    have hh : ∀ m < 10, (Nat.digitChar m).isDigit = true := by decide
    unfold natDigitsAux at hc
    by_cases h : n < 10
    · rw [if_pos h] at hc
      simp at hc
      subst hc
      exact hh n h
    · rw [if_neg h] at hc
      rw [List.mem_append] at hc
      rcases hc with hc | hc
      · exact ih (n / 10) c hc
      · simp at hc
        subst hc
        exact hh (n % 10) (Nat.mod_lt n (by norm_num))

lemma natNumStr_digits (n : Nat) :
    ∀ c ∈ (natNumStr n).data, c.isDigit = true := by
  intro c hc
  exact natDigitsAux_digits (n + 1) n c hc

lemma fracDigits_digits (prec r : Nat) :
    ∀ c ∈ (fracDigits prec r).data, c.isDigit = true := by
  intro c hc
  have hc2 : c ∈ (List.range prec).map
      (fun i => Nat.digitChar (r / 10 ^ (prec - 1 - i) % 10)) := hc
  obtain ⟨i, _, rfl⟩ := List.mem_map.mp hc2
  have hh : ∀ m < 10, (Nat.digitChar m).isDigit = true := by decide
  exact hh _ (Nat.mod_lt _ (by norm_num))

lemma fracDigits_length (prec r : Nat) : (fracDigits prec r).length = prec := by
  show ((List.range prec).map _).length = prec
  rw [List.length_map, List.length_range]

lemma fmtDec_structure (prec : Nat) (q : ℚ) :
    ∃ s t : String, fmtDec prec q = s ++ "." ++ t ∧ t.length = prec ∧
      (∀ c ∈ t.data, c.isDigit = true) ∧ (∀ c ∈ s.data, c ≠ '.') := by
  refine ⟨(if q.num < 0 then "-" else "") ++
      natNumStr (roundHalfEven (q.num.natAbs * 10 ^ prec) q.den / 10 ^ prec),
    fracDigits prec (roundHalfEven (q.num.natAbs * 10 ^ prec) q.den % 10 ^ prec),
    rfl, fracDigits_length _ _, fracDigits_digits _ _, ?_⟩
  intro c hc
  rw [String.data_append, List.mem_append] at hc
  rcases hc with hc | hc
  · by_cases hq : q.num < 0
    · rw [if_pos hq] at hc
      rw [show ("-" : String).data = ['-'] from rfl] at hc
      simp at hc
      subst hc
      decide
    · rw [if_neg hq] at hc
      simp at hc
  · exact digit_ne_dot (natNumStr_digits _ c hc)

lemma fmtDec_no_newline (prec : Nat) (q : ℚ) :
    ∀ c ∈ (fmtDec prec q).data, c ≠ '\n' := by
  intro c hc
  unfold fmtDec at hc
  rw [String.data_append, String.data_append, String.data_append,
    List.mem_append, List.mem_append, List.mem_append] at hc
  rcases hc with ((hc | hc) | hc) | hc
  · by_cases hq : q.num < 0
    · rw [if_pos hq] at hc
      rw [show ("-" : String).data = ['-'] from rfl] at hc
      simp at hc
      subst hc
      decide
    · rw [if_neg hq] at hc
      simp at hc
  · exact digit_ne_newline (natNumStr_digits _ c hc)
  · rw [show ("." : String).data = ['.'] from rfl] at hc
    simp at hc
    subst hc
    decide
  · exact digit_ne_newline (fracDigits_digits _ _ c hc)

lemma axisToken_no_newline (letter : String)
    (hl : ∀ c ∈ letter.data, c ≠ '\n') (v : Option ℚ) :
    ∀ c ∈ (axisToken letter v).data, c ≠ '\n' := by
  intro c hc
  cases v with
  | none =>
    simp [axisToken] at hc
  | some val =>
    unfold axisToken at hc
    rw [String.data_append, String.data_append, List.mem_append,
      List.mem_append] at hc
    rcases hc with (hc | hc) | hc
    · rw [show (" " : String).data = [' '] from rfl] at hc
      simp at hc
      subst hc
      decide
    · exact hl c hc
    · exact fmtDec_no_newline 4 val c hc

lemma feedToken_no_newline (options : Option GCodeOptions) :
    ∀ c ∈ (feedToken options).data, c ≠ '\n' := by
  intro c hc
  rcases options with _ | ⟨_ | fr⟩
  · simp [feedToken] at hc
  · simp [feedToken] at hc
  · unfold feedToken at hc
    rw [String.data_append, List.mem_append] at hc
    rcases hc with hc | hc
    · rw [show (" F" : String).data = [' ', 'F'] from rfl] at hc
      simp at hc
      rcases hc with hc | hc <;> subst hc <;> decide
    · exact fmtDec_no_newline 2 fr c hc

lemma moveChunks_no_newline (pos : GCodePosition)
    (options : Option GCodeOptions) (fast : Bool) :
    ∀ c ∈ (concatT (moveChunks pos options fast)).data, c ≠ '\n' := by
  intro c hc
  simp only [moveChunks, concatT, String.data_append, List.mem_append] at hc
  rcases hc with hc | hc | hc | hc | hc | hc
  · cases fast
    · have h2 : c ∈ ("G01" : String).data := hc
      have hG : ∀ c ∈ ("G01" : String).data, c ≠ '\n' := by decide
      exact hG c h2
    · have h2 : c ∈ ("G00" : String).data := hc
      have hG : ∀ c ∈ ("G00" : String).data, c ≠ '\n' := by decide
      exact hG c h2
  · exact axisToken_no_newline "X" (by decide) _ c hc
  · exact axisToken_no_newline "Y" (by decide) _ c hc
  · exact axisToken_no_newline "Z" (by decide) _ c hc
  · exact feedToken_no_newline options c hc
  · simp at hc

/-
Claim theorems.
-/

/-- C2: move_to emits exactly one line with no trailing line terminator:
the code G00 when fast is true else G01, then for each present axis, in
the fixed order X, Y, Z, a token of a single leading space, the axis
letter and the value with exactly 4 digits after the decimal point;
then, only if options is supplied and its feed rate is present, a token
of a single leading space, F and the feed rate with exactly 2 digits
after the decimal point; absent axes and absent feed contribute no text
at all. -/
theorem move_to_line_format (pos : GCodePosition)
    (options : Option GCodeOptions) (fast : Bool) :
    (move_to sinkAllOk pos options fast).1 = Except.ok () ∧
    (move_to sinkAllOk pos options fast).2.written =
      (if fast then "G00" else "G01") ++
        axisToken "X" (GCodePosition.as_f64 pos).1 ++
        axisToken "Y" (GCodePosition.as_f64 pos).2.1 ++
        axisToken "Z" (GCodePosition.as_f64 pos).2.2 ++
        feedToken options ∧
    (∀ c ∈ ((move_to sinkAllOk pos options fast).2.written).data, c ≠ '\n') ∧
    (∀ prec : Nat, ∀ q : ℚ, ∃ s t : String,
      fmtDec prec q = s ++ "." ++ t ∧ t.length = prec ∧
      (∀ c ∈ t.data, c.isDigit = true) ∧ (∀ c ∈ s.data, c ≠ '.')) := by
  have hok := move_to_allOk_ok pos options fast sinkAllOk (fun _ => rfl)
  have hw := (move_to_writes pos options fast sinkAllOk).2 hok
  refine ⟨hok, ?_, ?_, fmtDec_structure⟩
  · rw [hw]
    simp [moveChunks, concatT, sinkAllOk, str_empty_append,
      String.append_empty, String.append_assoc]
  · intro c hc
    rw [hw] at hc
    have hc2 : c ∈ (concatT (moveChunks pos options fast)).data := by
      rwa [show sinkAllOk.written = "" from rfl, str_empty_append] at hc
    exact moveChunks_no_newline pos options fast c hc2

/-- Witness for C2, at the example of the claim: the position built from
the floats 1, 2, 3 emits exactly the expected line. -/
theorem move_to_line_format_witness :
    GCodePosition.from_f64_full 1 2 3 =
      Except.ok (GCodePosition.from_raw_full 65536 131072 196608) ∧
    (move_to sinkAllOk (GCodePosition.from_raw_full 65536 131072 196608)
      none false).2.written = "G01 X1.0000 Y2.0000 Z3.0000" := by
  constructor
  · decide
  · have h := (move_to_line_format
      (GCodePosition.from_raw_full 65536 131072 196608) none false).2.1
    rw [h]
    decide

/-- C4 (amended): move_to is fail-fast but not atomic: on an I/O error
the destination retains exactly the chunks already written, which form a
prefix of the chunk sequence of the move-command line. -/
theorem move_to_error_prefix (st : Sink) (pos : GCodePosition)
    (options : Option GCodeOptions) (fast : Bool) (e : GCodeError)
    (_herr : (move_to st pos options fast).1 = Except.error e) :
    ∃ n, n ≤ (moveChunks pos options fast).length ∧
      (move_to st pos options fast).2.written =
        st.written ++ concatT ((moveChunks pos options fast).take n) := by
  obtain ⟨⟨n, hn, hw⟩, _⟩ := move_to_writes pos options fast st
  exact ⟨n, hn, hw⟩

/-- Witness for C4: a sink whose second write fails makes move_to error
while a proper prefix of the line stands written. -/
theorem move_to_error_prefix_witness :
    (move_to sinkFailSecond
      (GCodePosition.from_raw_full 65536 131072 196608) none false).1 =
        Except.error GCodeError.IOError ∧
    ∃ n, n ≤ (moveChunks (GCodePosition.from_raw_full 65536 131072 196608)
        none false).length ∧
      (move_to sinkFailSecond
        (GCodePosition.from_raw_full 65536 131072 196608) none false).2.written =
        sinkFailSecond.written ++
          concatT ((moveChunks (GCodePosition.from_raw_full 65536 131072 196608)
            none false).take n) := by
  constructor
  · decide
  · exact move_to_error_prefix _ _ _ _ GCodeError.IOError (by decide)

/-- Counterexample for C4 as stated: when move_to returns an I/O error
the written output is not unchanged: the failing call below has already
written the G01 code chunk. -/
theorem move_to_partial_write :
    (move_to sinkFailSecond
      (GCodePosition.from_raw_full 65536 131072 196608) none false).1 =
        Except.error GCodeError.IOError ∧
    (move_to sinkFailSecond
      (GCodePosition.from_raw_full 65536 131072 196608) none false).2.written =
        "G01" ∧
    ("G01" : String) ≠ "" := by
  refine ⟨by decide, by decide, by decide⟩

/-- C8: flush returns the I/O error kind exactly when the underlying
flush fails, success otherwise, and nothing else. -/
theorem flush_error_iff (st : Sink) :
    (flushW st = Except.error GCodeError.IOError ↔ st.flushOk = false) ∧
    (flushW st = Except.ok () ↔ st.flushOk = true) ∧
    (flushW st = Except.ok () ∨
      flushW st = Except.error GCodeError.IOError) := by
  cases h : st.flushOk <;> simp [flushW, h]

/-- C10: constructing the writer never fails: the Result returned by new
is always the success case, holding the given sink. -/
theorem new_never_fails (s : Sink) :
    ∃ w : GCodeWriter, GCodeWriter.new s = Except.ok w ∧ w.writer = s :=
  ⟨{ writer := s }, rfl, rfl⟩

lemma wrap64_eq_self (n : Int) (h : resFits n) : GCodePosition.wrap64 n = n := by
  obtain ⟨h1, h2⟩ := h
  unfold GCodePosition.wrap64
  have h3 : (n + 9223372036854775808).emod 18446744073709551616 =
      n + 9223372036854775808 :=
    Int.emod_eq_of_lt (by linarith) (by linarith)
  rw [h3]
  ring

/-- C1 (amended): addition and subtraction follow the per-axis rule:
combine only when both sides are present (the combined value being the
wrapped machine result), otherwise pass the left operand through, so the
presence pattern of the result is always that of the left operand; the
wrapped result equals the mathematical sum or difference whenever that
value fits in the i64 range. -/
theorem add_sub_axis_rule (a b : GCodePosition) :
    axisRule a.x b.x (GCodePosition.add a b).x (fun l r => l + r) ∧
    axisRule a.y b.y (GCodePosition.add a b).y (fun l r => l + r) ∧
    axisRule a.z b.z (GCodePosition.add a b).z (fun l r => l + r) ∧
    axisRule a.x b.x (GCodePosition.sub a b).x (fun l r => l - r) ∧
    axisRule a.y b.y (GCodePosition.sub a b).y (fun l r => l - r) ∧
    axisRule a.z b.z (GCodePosition.sub a b).z (fun l r => l - r) ∧
    (∀ n : Int, resFits n → GCodePosition.wrap64 n = n) := by
  obtain ⟨ax, ay, az⟩ := a
  obtain ⟨b1, b2, b3⟩ := b
  refine ⟨?_, ?_, ?_, ?_, ?_, ?_, fun n h => wrap64_eq_self n h⟩
  · cases ax <;> cases b1 <;> simp [GCodePosition.add, axisRule]
  · cases ay <;> cases b2 <;> simp [GCodePosition.add, axisRule]
  · cases az <;> cases b3 <;> simp [GCodePosition.add, axisRule]
  · cases ax <;> cases b1 <;> simp [GCodePosition.sub, axisRule]
  · cases ay <;> cases b2 <;> simp [GCodePosition.sub, axisRule]
  · cases az <;> cases b3 <;> simp [GCodePosition.sub, axisRule]

/-- Witness for C1 at concrete positions with present and absent axes. -/
theorem add_sub_axis_rule_witness :
    (GCodePosition.add (GCodePosition.from_raw (some 65536) none (some 131072))
      (GCodePosition.from_raw (some 131072) (some 196608) none)).x =
      some 196608 ∧
    GCodePosition.wrap64 196608 = 196608 := by
  have h := add_sub_axis_rule
    (GCodePosition.from_raw (some 65536) none (some 131072))
    (GCodePosition.from_raw (some 131072) (some 196608) none)
  constructor
  · have h2 := h.1.2.1 65536 rfl 131072 rfl
    rw [h2]
    decide
  · exact h.2.2.2.2.2.2 196608 ⟨by norm_num, by norm_num⟩

/-- Counterexample for C1 as stated: adding two positions whose X axes
both hold i64::MAX does not produce their mathematical sum; the machine
addition wraps (release profile; a debug build would panic). -/
theorem add_not_plain_sum :
    GCodePosition.add
      (GCodePosition.from_raw (some 9223372036854775807) none none)
      (GCodePosition.from_raw (some 9223372036854775807) none none) =
      GCodePosition.from_raw (some (-2)) none none ∧
    (9223372036854775807 + 9223372036854775807 : Int) ≠ -2 := by
  exact ⟨by decide, by decide⟩

lemma specTrunc_scaled (q : ℚ) :
    specTrunc (q * 65536) = (q.num * 65536).tdiv (q.den : ℤ) := by
  unfold specTrunc
  by_cases h : 0 ≤ q * 65536
  · rw [if_pos h, ← scaled_cast q]
    have hn : 0 ≤ q.num * 65536 := by
      have h2 := (le_scaled_iff q 0).mpr (by exact_mod_cast h)
      rwa [zero_mul] at h2
    exact (tdiv_cast_nonneg _ _ q.den_pos hn).symm
  · rw [if_neg h, ← scaled_cast q]
    push_neg at h
    have hn : q.num * 65536 < 0 := by
      have h2 := (scaled_lt_iff q 0).mpr (by exact_mod_cast h)
      rwa [zero_mul] at h2
    exact (tdiv_cast_neg _ _ q.den_pos hn).symm

lemma convAxis_ok_iff (o : Option ℚ) :
    (∃ v, GCodePosition.convAxis o = Except.ok v) ↔ axisOK o := by
  cases o with
  | none =>
    constructor
    · intro _
      intro v hv
      simp at hv
    · intro _
      exact ⟨none, rfl⟩
  | some q =>
    have hax : axisOK (some q) ↔
        (-(9223372036854775808 : ℚ) ≤ q * 65536 ∧
          q * 65536 ≤ (9223372036854775808 : ℚ)) := by
      simp [axisOK]
    rw [hax, ← f64_to_fixed_ok_iff]
    unfold GCodePosition.convAxis
    cases hf : GCodePosition.f64_to_fixed q with
    | error e => simp [hf]
    | ok n => simp [hf]

lemma convAxis_err (o : Option ℚ) (e : GCodeError)
    (h : GCodePosition.convAxis o = Except.error e) :
    e = GCodeError.OutOfRangeError := by
  cases o with
  | none => simp [GCodePosition.convAxis] at h
  | some q =>
    unfold GCodePosition.convAxis at h
    cases hf : GCodePosition.f64_to_fixed q with
    | ok n => simp [hf] at h
    | error e2 =>
      simp [hf] at h
      unfold GCodePosition.f64_to_fixed at hf
      split at hf
      · simp at hf
        rw [← h, ← hf]
      · simp at hf

lemma convAxis_ok_val (o : Option ℚ) (v : Option Int)
    (h : GCodePosition.convAxis o = Except.ok v) :
    v = o.map (fun q => min (specTrunc (q * 65536)) 9223372036854775807) := by
  cases o with
  | none =>
    simp [GCodePosition.convAxis] at h
    simp [← h]
  | some q =>
    unfold GCodePosition.convAxis at h
    cases hf : GCodePosition.f64_to_fixed q with
    | error e => simp [hf] at h
    | ok n =>
      simp [hf] at h
      have hval := f64_to_fixed_ok_val q n hf
      rw [← h]
      simp only [Option.map_some']
      rw [specTrunc_scaled, ← hval]

/-- C3 (amended): construction from floats fails with OutOfRangeError
exactly when some present input, multiplied by 65536, falls outside the
closed interval between the f64 images of the i64 bounds, which are
-2^63 and 2^63 (the top bound being the f64 rounding of i64::MAX, not
i64::MAX itself); present in-range inputs are truncated toward zero
after scaling and then clamped to at most i64::MAX, absent inputs remain
absent, and the construction is all-or-nothing. -/
theorem from_f64_range_spec (x y z : Option ℚ) :
    ((∃ p, GCodePosition.from_f64 x y z = Except.ok p) ↔
      axisOK x ∧ axisOK y ∧ axisOK z) ∧
    (∀ e, GCodePosition.from_f64 x y z = Except.error e →
      e = GCodeError.OutOfRangeError) ∧
    (∀ p, GCodePosition.from_f64 x y z = Except.ok p →
      p.x = x.map (fun q => min (specTrunc (q * 65536)) 9223372036854775807) ∧
      p.y = y.map (fun q => min (specTrunc (q * 65536)) 9223372036854775807) ∧
      p.z = z.map (fun q => min (specTrunc (q * 65536)) 9223372036854775807)) := by
  refine ⟨⟨?_, ?_⟩, ?_, ?_⟩
  · rintro ⟨p, hp⟩
    unfold GCodePosition.from_f64 at hp
    cases hx : GCodePosition.convAxis x with
    | error e => simp [hx] at hp
    | ok xv =>
      rw [hx] at hp
      cases hy : GCodePosition.convAxis y with
      | error e => simp [hy] at hp
      | ok yv =>
        rw [hy] at hp
        cases hz : GCodePosition.convAxis z with
        | error e => simp [hz] at hp
        | ok zv =>
          exact ⟨(convAxis_ok_iff x).mp ⟨xv, hx⟩, (convAxis_ok_iff y).mp ⟨yv, hy⟩,
            (convAxis_ok_iff z).mp ⟨zv, hz⟩⟩
  · rintro ⟨hx, hy, hz⟩
    obtain ⟨xv, hxv⟩ := (convAxis_ok_iff x).mpr hx
    obtain ⟨yv, hyv⟩ := (convAxis_ok_iff y).mpr hy
    obtain ⟨zv, hzv⟩ := (convAxis_ok_iff z).mpr hz
    refine ⟨{ x := xv, y := yv, z := zv }, ?_⟩
    unfold GCodePosition.from_f64
    rw [hxv, hyv, hzv]
  · intro e he
    unfold GCodePosition.from_f64 at he
    cases hx : GCodePosition.convAxis x with
    | error e2 =>
      rw [hx] at he
      simp at he
      rw [← he]
      exact convAxis_err x e2 hx
    | ok xv =>
      rw [hx] at he
      cases hy : GCodePosition.convAxis y with
      | error e2 =>
        rw [hy] at he
        simp at he
        rw [← he]
        exact convAxis_err y e2 hy
      | ok yv =>
        rw [hy] at he
        cases hz : GCodePosition.convAxis z with
        | error e2 =>
          rw [hz] at he
          simp at he
          rw [← he]
          exact convAxis_err z e2 hz
        | ok zv =>
          rw [hz] at he
          simp at he
  · intro p hp
    unfold GCodePosition.from_f64 at hp
    cases hx : GCodePosition.convAxis x with
    | error e => simp [hx] at hp
    | ok xv =>
      rw [hx] at hp
      cases hy : GCodePosition.convAxis y with
      | error e => simp [hy] at hp
      | ok yv =>
        rw [hy] at hp
        cases hz : GCodePosition.convAxis z with
        | error e => simp [hz] at hp
        | ok zv =>
          rw [hz] at hp
          simp at hp
          rw [← hp]
          exact ⟨convAxis_ok_val x xv hx, convAxis_ok_val y yv hy,
            convAxis_ok_val z zv hz⟩

/-- Witness for C3: in-range inputs succeed and a far out-of-range input
fails with OutOfRangeError. -/
theorem from_f64_range_spec_witness :
    (∃ p, GCodePosition.from_f64 (some 1) (some 2) none = Except.ok p) ∧
    GCodePosition.from_f64 (some 150000000000000) none none =
      Except.error GCodeError.OutOfRangeError := by
  constructor
  · apply (from_f64_range_spec (some 1) (some 2) none).1.mpr
    refine ⟨?_, ?_, ?_⟩ <;> intro v hv <;> simp at hv <;> subst hv <;>
      constructor <;> norm_num
  · decide

/-- Counterexample for C3 as stated: the input 2^47 scales to exactly
2^63, which exceeds i64::MAX = 2^63 - 1, so a check against the true
64-bit signed bounds would reject it; the code accepts it and stores
i64::MAX through the saturating cast, so the guard is not the true
bound and the stored value is not the truncation of the scaled input. -/
theorem from_f64_boundary_saturates :
    GCodePosition.from_f64 (some 140737488355328) none none =
      Except.ok (GCodePosition.from_raw (some 9223372036854775807) none none) ∧
    (140737488355328 : ℚ) * 65536 = (9223372036854775808 : ℚ) ∧
    ((9223372036854775807 : Int) : ℚ) < (9223372036854775808 : ℚ) := by
  refine ⟨by decide, by norm_num, by norm_num⟩

/-- C7: for an axis value v whose scaled image fits the signed 64-bit
range, building a position from v on every axis succeeds and reading the
axes back yields a value within 1/65536 of v. -/
theorem fixed_roundtrip_error_bound (v : ℚ)
    (hlo : -(9223372036854775808 : ℚ) ≤ v * 65536)
    (hhi : v * 65536 ≤ (9223372036854775807 : ℚ)) :
    ∃ p, GCodePosition.from_f64 (some v) (some v) (some v) = Except.ok p ∧
      ∃ w, GCodePosition.x_f64 p = some w ∧ GCodePosition.y_f64 p = some w ∧
        GCodePosition.z_f64 p = some w ∧ |v - w| ≤ 1 / 65536 := by
  obtain ⟨f, hf⟩ := (f64_to_fixed_ok_iff v).mpr ⟨hlo, by linarith⟩
  obtain ⟨hfeq, hclose⟩ := f64_to_fixed_no_clamp v f hf hhi
  have hca : GCodePosition.convAxis (some v) = Except.ok (some f) := by
    simp [GCodePosition.convAxis, hf]
  refine ⟨{ x := some f, y := some f, z := some f }, ?_, ?_⟩
  · unfold GCodePosition.from_f64
    rw [hca]
  · refine ⟨Rat.divInt f 65536, rfl, rfl, rfl, ?_⟩
    have hw : (Rat.divInt f 65536 : ℚ) = (f : ℚ) / 65536 := by
      rw [Rat.divInt_eq_div]
      norm_num
    rw [hw]
    have h1 : v - (f : ℚ) / 65536 = (v * 65536 - (f : ℚ)) / 65536 := by
      ring
    rw [h1, abs_div, show |(65536 : ℚ)| = 65536 by norm_num]
    have h2 : |v * 65536 - (f : ℚ)| ≤ 1 := by
      rw [abs_sub_comm]
      exact le_of_lt hclose
    gcongr

/-- Witness for C7 at the value one third, where the truncation is
proper. -/
theorem fixed_roundtrip_error_bound_witness :
    ∃ p, GCodePosition.from_f64 (some (1 / 3)) (some (1 / 3)) (some (1 / 3)) =
        Except.ok p ∧
      ∃ w, GCodePosition.x_f64 p = some w ∧ GCodePosition.y_f64 p = some w ∧
        GCodePosition.z_f64 p = some w ∧ |1 / 3 - w| ≤ 1 / 65536 :=
  fixed_roundtrip_error_bound (1 / 3) (by norm_num) (by norm_num)

/-- C9: a scalar divisor whose magnitude scaled by 65536 stays below one
converts to the fixed value zero, and dividing any position with at
least one present axis by it panics with an integer division by zero,
not an OutOfRangeError and not a quotient; the guard of the division
checks only the range of the result, never that the divisor is
nonzero. -/
theorem div_zero_fixed_panics (p : GCodePosition) (q : ℚ)
    (hpres : anyPresent p) (hq : |q * 65536| < 1) :
    GCodePosition.div p q = Except.error RustPanic.divByZero := by
  have hf : GCodePosition.f64_to_fixed q = Except.ok 0 := f64_to_fixed_small q hq
  obtain ⟨px, py, pz⟩ := p
  have hpres2 : px.isSome = true ∨ py.isSome = true ∨ pz.isSome = true := hpres
  unfold GCodePosition.div
  rw [hf]
  rcases hpres2 with hx | hy | hz
  · obtain ⟨xv, rfl⟩ := Option.isSome_iff_exists.mp hx
    rfl
  · cases px with
    | some xv => rfl
    | none =>
      obtain ⟨yv, rfl⟩ := Option.isSome_iff_exists.mp hy
      rfl
  · cases px with
    | some xv => rfl
    | none =>
      cases py with
      | some yv => rfl
      | none =>
        obtain ⟨zv, rfl⟩ := Option.isSome_iff_exists.mp hz
        rfl

/-- Witness for C9: dividing the position (1,2,3) by the float zero. -/
theorem div_zero_fixed_panics_witness :
    GCodePosition.div (GCodePosition.from_raw_full 65536 131072 196608) 0 =
      Except.error RustPanic.divByZero :=
  div_zero_fixed_panics (GCodePosition.from_raw_full 65536 131072 196608) 0
    (Or.inl rfl) (by norm_num)

/-
Lemmas about scalar multiplication and division.
-/

lemma mapAxis_ok_val (f : Int → Except RustPanic Int) (o w : Option Int)
    (h : GCodePosition.mapAxis f o = Except.ok w) :
    w.isSome = o.isSome ∧ ∀ v ∈ o, ∃ s, f v = Except.ok s ∧ w = some s := by
  cases o with
  | none =>
    simp [GCodePosition.mapAxis] at h
    constructor
    · rw [← h]
    · intro v hv
      simp at hv
  | some v =>
    have h2 : (match f v with
        | Except.error e => Except.error e
        | Except.ok r => Except.ok (some r)) = Except.ok w := h
    cases hf : f v with
    | error e =>
      rw [hf] at h2
      simp at h2
    | ok s =>
      rw [hf] at h2
      simp at h2
      constructor
      · rw [← h2]
        rfl
      · intro v2 hv2
        simp at hv2
        subst hv2
        exact ⟨s, hf, h2.symm⟩

lemma mapAxis_ok_of_all (f : Int → Except RustPanic Int) (o : Option Int)
    (h : ∀ v ∈ o, ∃ s, f v = Except.ok s) :
    ∃ w, GCodePosition.mapAxis f o = Except.ok w := by
  cases o with
  | none => exact ⟨none, rfl⟩
  | some v =>
    obtain ⟨s, hs⟩ := h v rfl
    exact ⟨some s, by simp [GCodePosition.mapAxis, hs]⟩

lemma mulFixed_ok_iff (fixed v : Int) :
    (∃ s, GCodePosition.mulFixed fixed v = Except.ok s) ↔
      resFits ((v * fixed).tdiv 65536) := by
  unfold GCodePosition.mulFixed resFits
  by_cases hc : 9223372036854775807 < (v * fixed).tdiv 65536 ∨
      (v * fixed).tdiv 65536 < -9223372036854775808
  · rw [if_pos hc]
    constructor
    · rintro ⟨s, hs⟩
      simp at hs
    · rintro ⟨h1, h2⟩
      rcases hc with hc | hc <;> omega
  · rw [if_neg hc]
    push_neg at hc
    constructor
    · intro _
      exact ⟨hc.2, hc.1⟩
    · intro _
      exact ⟨_, rfl⟩

lemma mulFixed_ok_val (fixed v s : Int)
    (h : GCodePosition.mulFixed fixed v = Except.ok s) :
    s = (v * fixed).tdiv 65536 := by
  unfold GCodePosition.mulFixed at h
  split at h
  · simp at h
  · simp at h
    exact h.symm

lemma divFixed_ok_iff (fixed v : Int) :
    (∃ s, GCodePosition.divFixed fixed v = Except.ok s) ↔
      fixed ≠ 0 ∧ resFits ((v * 65536).tdiv fixed) := by
  unfold GCodePosition.divFixed resFits
  by_cases hz : fixed = 0
  · rw [if_pos hz]
    constructor
    · rintro ⟨s, hs⟩
      simp at hs
    · rintro ⟨h, _⟩
      exact absurd hz h
  · rw [if_neg hz]
    by_cases hc : 9223372036854775807 < (v * 65536).tdiv fixed ∨
        (v * 65536).tdiv fixed < -9223372036854775808
    · rw [if_pos hc]
      constructor
      · rintro ⟨s, hs⟩
        simp at hs
      · rintro ⟨_, h1, h2⟩
        rcases hc with hc | hc <;> omega
    · rw [if_neg hc]
      push_neg at hc
      constructor
      · intro _
        exact ⟨hz, hc.2, hc.1⟩
      · intro _
        exact ⟨_, rfl⟩

lemma divFixed_ok_val (fixed v s : Int)
    (h : GCodePosition.divFixed fixed v = Except.ok s) :
    s = (v * 65536).tdiv fixed := by
  unfold GCodePosition.divFixed at h
  split at h
  · simp at h
  · split at h
    · simp at h
    · simp at h
      exact h.symm

lemma mul_ok_iff (p : GCodePosition) (q : ℚ) :
    (∃ r, GCodePosition.mul p q = Except.ok r) ↔ mulOKPre p q := by
  unfold mulOKPre
  cases hf : GCodePosition.f64_to_fixed q with
  | error e =>
    simp [GCodePosition.mul, hf]
  | ok fixed =>
    constructor
    · rintro ⟨r, hr⟩
      simp only [GCodePosition.mul, hf] at hr
      split at hr
      · simp at hr
      · rename_i xv hx
        split at hr
        · simp at hr
        · rename_i yv hy
          split at hr
          · simp at hr
          · rename_i zv hz
            refine ⟨fixed, rfl, ?_, ?_, ?_⟩
            · intro v hv
              obtain ⟨s, hs, _⟩ := (mapAxis_ok_val _ _ _ hx).2 v hv
              exact (mulFixed_ok_iff fixed v).mp ⟨s, hs⟩
            · intro v hv
              obtain ⟨s, hs, _⟩ := (mapAxis_ok_val _ _ _ hy).2 v hv
              exact (mulFixed_ok_iff fixed v).mp ⟨s, hs⟩
            · intro v hv
              obtain ⟨s, hs, _⟩ := (mapAxis_ok_val _ _ _ hz).2 v hv
              exact (mulFixed_ok_iff fixed v).mp ⟨s, hs⟩
    · rintro ⟨f, hfeq, hx, hy, hz⟩
      simp at hfeq
      subst hfeq
      obtain ⟨xv, hxv⟩ := mapAxis_ok_of_all _ _
        (fun v hv => (mulFixed_ok_iff fixed v).mpr (hx v hv))
      obtain ⟨yv, hyv⟩ := mapAxis_ok_of_all _ _
        (fun v hv => (mulFixed_ok_iff fixed v).mpr (hy v hv))
      obtain ⟨zv, hzv⟩ := mapAxis_ok_of_all _ _
        (fun v hv => (mulFixed_ok_iff fixed v).mpr (hz v hv))
      refine ⟨{ x := xv, y := yv, z := zv }, ?_⟩
      simp only [GCodePosition.mul, hf, hxv, hyv, hzv]

lemma div_ok_iff (p : GCodePosition) (q : ℚ) :
    (∃ r, GCodePosition.div p q = Except.ok r) ↔ divOKPre p q := by
  unfold divOKPre
  cases hf : GCodePosition.f64_to_fixed q with
  | error e =>
    simp [GCodePosition.div, hf]
  | ok fixed =>
    constructor
    · rintro ⟨r, hr⟩
      simp only [GCodePosition.div, hf] at hr
      split at hr
      · simp at hr
      · rename_i xv hx
        split at hr
        · simp at hr
        · rename_i yv hy
          split at hr
          · simp at hr
          · rename_i zv hz
            refine ⟨fixed, rfl, ?_, ?_, ?_⟩
            · intro v hv
              obtain ⟨s, hs, _⟩ := (mapAxis_ok_val _ _ _ hx).2 v hv
              exact (divFixed_ok_iff fixed v).mp ⟨s, hs⟩
            · intro v hv
              obtain ⟨s, hs, _⟩ := (mapAxis_ok_val _ _ _ hy).2 v hv
              exact (divFixed_ok_iff fixed v).mp ⟨s, hs⟩
            · intro v hv
              obtain ⟨s, hs, _⟩ := (mapAxis_ok_val _ _ _ hz).2 v hv
              exact (divFixed_ok_iff fixed v).mp ⟨s, hs⟩
    · rintro ⟨f, hfeq, hx, hy, hz⟩
      simp at hfeq
      subst hfeq
      obtain ⟨xv, hxv⟩ := mapAxis_ok_of_all _ _
        (fun v hv => (divFixed_ok_iff fixed v).mpr (hx v hv))
      obtain ⟨yv, hyv⟩ := mapAxis_ok_of_all _ _
        (fun v hv => (divFixed_ok_iff fixed v).mpr (hy v hv))
      obtain ⟨zv, hzv⟩ := mapAxis_ok_of_all _ _
        (fun v hv => (divFixed_ok_iff fixed v).mpr (hz v hv))
      refine ⟨{ x := xv, y := yv, z := zv }, ?_⟩
      simp only [GCodePosition.div, hf, hxv, hyv, hzv]

lemma abs_mul_lt_i128 (v f : Int)
    (hv : -9223372036854775808 ≤ v ∧ v ≤ 9223372036854775807)
    (hf : -9223372036854775808 ≤ f ∧ f ≤ 9223372036854775807) :
    |v * f| < 170141183460469231731687303715884105728 := by
  have h1 : |v| ≤ 9223372036854775808 := by
    rw [abs_le]
    omega
  have h2 : |f| ≤ 9223372036854775808 := by
    rw [abs_le]
    omega
  calc |v * f| = |v| * |f| := abs_mul v f
    _ ≤ 9223372036854775808 * 9223372036854775808 :=
      mul_le_mul h1 h2 (abs_nonneg f) (by norm_num)
    _ < 170141183460469231731687303715884105728 := by norm_num

lemma abs_mul_scale_lt_i128 (v : Int)
    (hv : -9223372036854775808 ≤ v ∧ v ≤ 9223372036854775807) :
    |v * 65536| < 170141183460469231731687303715884105728 := by
  have h1 : |v| ≤ 9223372036854775808 := by
    rw [abs_le]
    omega
  calc |v * 65536| = |v| * |(65536 : Int)| := abs_mul v 65536
    _ ≤ 9223372036854775808 * 65536 :=
      mul_le_mul h1 (by norm_num) (by norm_num) (by norm_num)
    _ < 170141183460469231731687303715884105728 := by norm_num

/-- C5 (amended): scalar multiplication and division panic, rather than
returning a recoverable error, exactly outside their preconditions: they
return normally precisely when the scalar conversion succeeds and every
per-axis rescaled result fits the i64 range, where for division the
converted scalar must additionally be nonzero on every present axis
(otherwise the panic is the integer division by zero); and when the
scalar conversion itself overflows, both operations panic with the
overflow message. -/
theorem mul_div_panic_spec (p : GCodePosition) (q : ℚ) :
    ((∃ r, GCodePosition.mul p q = Except.ok r) ↔ mulOKPre p q) ∧
    ((∃ r, GCodePosition.div p q = Except.ok r) ↔ divOKPre p q) ∧
    (∀ e, GCodePosition.f64_to_fixed q = Except.error e →
      GCodePosition.mul p q = Except.error RustPanic.overflow ∧
      GCodePosition.div p q = Except.error RustPanic.overflow) := by
  refine ⟨mul_ok_iff p q, div_ok_iff p q, ?_⟩
  intro e he
  constructor <;> simp [GCodePosition.mul, GCodePosition.div, he]

/-- Witness for C5: multiplying and dividing the position (1,2,3) by the
scalar two returns normally. -/
theorem mul_div_panic_spec_witness :
    (∃ r, GCodePosition.mul (GCodePosition.from_raw_full 65536 131072 196608) 2 =
        Except.ok r) ∧
    (∃ r, GCodePosition.div (GCodePosition.from_raw_full 65536 131072 196608) 2 =
        Except.ok r) := by
  constructor
  · apply (mul_div_panic_spec (GCodePosition.from_raw_full 65536 131072 196608)
      2).1.mpr
    refine ⟨131072, by decide, ?_, ?_, ?_⟩ <;>
      (intro v hv;
       simp [GCodePosition.from_raw_full, GCodePosition.from_raw] at hv;
       subst hv;
       exact ⟨by decide, by decide⟩)
  · apply (mul_div_panic_spec (GCodePosition.from_raw_full 65536 131072 196608)
      2).2.1.mpr
    refine ⟨131072, by decide, ?_, ?_, ?_⟩ <;>
      (intro v hv;
       simp [GCodePosition.from_raw_full, GCodePosition.from_raw] at hv;
       subst hv;
       exact ⟨by decide, by decide, by decide⟩)

/-- Counterexample for C5 as stated: for the divisor zero the scalar
conversion succeeds with the in-range fixed value zero and the rescaled
per-axis quotient, read as an integer, also lies in range, yet the
division panics (with a division by zero, which the precondition of the
claim does not exclude). -/
theorem div_zero_divisor_panics :
    GCodePosition.f64_to_fixed 0 = Except.ok 0 ∧
    resFits 0 ∧
    ((65536 : Int) * 65536).tdiv 0 = 0 ∧
    resFits (((65536 : Int) * 65536).tdiv 0) ∧
    GCodePosition.div (GCodePosition.from_raw (some 65536) none none) 0 =
      Except.error RustPanic.divByZero := by
  refine ⟨by decide, ⟨by decide, by decide⟩, by decide,
    ⟨by decide, by decide⟩, by decide⟩

/-- C6: whenever scalar multiplication or division returns normally,
each present axis is transformed independently through the widened
intermediate (which fits an i128, its magnitude staying below 2^127)
before rescaling, and the presence pattern is preserved: absent axes
stay absent and present axes stay present. -/
theorem mul_div_presence_widening (p : GCodePosition) (q : ℚ)
    (r : GCodePosition) (hb : GCodePosition.inI64 p) :
    (GCodePosition.mul p q = Except.ok r →
      (r.x.isSome = p.x.isSome ∧ r.y.isSome = p.y.isSome ∧
        r.z.isSome = p.z.isSome) ∧
      ∃ f, GCodePosition.f64_to_fixed q = Except.ok f ∧
        (∀ v ∈ p.x, r.x = some ((v * f).tdiv 65536) ∧
          |v * f| < 170141183460469231731687303715884105728) ∧
        (∀ v ∈ p.y, r.y = some ((v * f).tdiv 65536) ∧
          |v * f| < 170141183460469231731687303715884105728) ∧
        (∀ v ∈ p.z, r.z = some ((v * f).tdiv 65536) ∧
          |v * f| < 170141183460469231731687303715884105728)) ∧
    (GCodePosition.div p q = Except.ok r →
      (r.x.isSome = p.x.isSome ∧ r.y.isSome = p.y.isSome ∧
        r.z.isSome = p.z.isSome) ∧
      ∃ f, GCodePosition.f64_to_fixed q = Except.ok f ∧
        (∀ v ∈ p.x, r.x = some ((v * 65536).tdiv f) ∧
          |v * 65536| < 170141183460469231731687303715884105728) ∧
        (∀ v ∈ p.y, r.y = some ((v * 65536).tdiv f) ∧
          |v * 65536| < 170141183460469231731687303715884105728) ∧
        (∀ v ∈ p.z, r.z = some ((v * 65536).tdiv f) ∧
          |v * 65536| < 170141183460469231731687303715884105728)) := by
  constructor
  · intro hm
    cases hf : GCodePosition.f64_to_fixed q with
    | error e => simp [GCodePosition.mul, hf] at hm
    | ok fixed =>
      simp only [GCodePosition.mul, hf] at hm
      split at hm
      · simp at hm
      · rename_i xv hx
        split at hm
        · simp at hm
        · rename_i yv hy
          split at hm
          · simp at hm
          · rename_i zv hz
            simp only [Except.ok.injEq] at hm
            subst hm
            have hfb := f64_to_fixed_ok_bounds q fixed hf
            refine ⟨⟨(mapAxis_ok_val _ _ _ hx).1, (mapAxis_ok_val _ _ _ hy).1,
              (mapAxis_ok_val _ _ _ hz).1⟩, fixed, rfl, ?_, ?_, ?_⟩
            · intro v hv
              obtain ⟨s, hs, hws⟩ := (mapAxis_ok_val _ _ _ hx).2 v hv
              exact ⟨by rw [show ({ x := xv, y := yv, z := zv } :
                  GCodePosition).x = xv from rfl, hws,
                  mulFixed_ok_val fixed v s hs],
                abs_mul_lt_i128 v fixed (hb.1 v hv) hfb⟩
            · intro v hv
              obtain ⟨s, hs, hws⟩ := (mapAxis_ok_val _ _ _ hy).2 v hv
              exact ⟨by rw [show ({ x := xv, y := yv, z := zv } :
                  GCodePosition).y = yv from rfl, hws,
                  mulFixed_ok_val fixed v s hs],
                abs_mul_lt_i128 v fixed (hb.2.1 v hv) hfb⟩
            · intro v hv
              obtain ⟨s, hs, hws⟩ := (mapAxis_ok_val _ _ _ hz).2 v hv
              exact ⟨by rw [show ({ x := xv, y := yv, z := zv } :
                  GCodePosition).z = zv from rfl, hws,
                  mulFixed_ok_val fixed v s hs],
                abs_mul_lt_i128 v fixed (hb.2.2 v hv) hfb⟩
  · intro hm
    cases hf : GCodePosition.f64_to_fixed q with
    | error e => simp [GCodePosition.div, hf] at hm
    | ok fixed =>
      simp only [GCodePosition.div, hf] at hm
      split at hm
      · simp at hm
      · rename_i xv hx
        split at hm
        · simp at hm
        · rename_i yv hy
          split at hm
          · simp at hm
          · rename_i zv hz
            simp only [Except.ok.injEq] at hm
            subst hm
            refine ⟨⟨(mapAxis_ok_val _ _ _ hx).1, (mapAxis_ok_val _ _ _ hy).1,
              (mapAxis_ok_val _ _ _ hz).1⟩, fixed, rfl, ?_, ?_, ?_⟩
            · intro v hv
              obtain ⟨s, hs, hws⟩ := (mapAxis_ok_val _ _ _ hx).2 v hv
              exact ⟨by rw [show ({ x := xv, y := yv, z := zv } :
                  GCodePosition).x = xv from rfl, hws,
                  divFixed_ok_val fixed v s hs],
                abs_mul_scale_lt_i128 v (hb.1 v hv)⟩
            · intro v hv
              obtain ⟨s, hs, hws⟩ := (mapAxis_ok_val _ _ _ hy).2 v hv
              exact ⟨by rw [show ({ x := xv, y := yv, z := zv } :
                  GCodePosition).y = yv from rfl, hws,
                  divFixed_ok_val fixed v s hs],
                abs_mul_scale_lt_i128 v (hb.2.1 v hv)⟩
            · intro v hv
              obtain ⟨s, hs, hws⟩ := (mapAxis_ok_val _ _ _ hz).2 v hv
              exact ⟨by rw [show ({ x := xv, y := yv, z := zv } :
                  GCodePosition).z = zv from rfl, hws,
                  divFixed_ok_val fixed v s hs],
                abs_mul_scale_lt_i128 v (hb.2.2 v hv)⟩

/-- Witness for C6: the product of (1,2,3) and the scalar two keeps the
presence pattern of the input. -/
theorem mul_div_presence_widening_witness :
    (GCodePosition.from_raw_full 131072 262144 393216).x.isSome =
      (GCodePosition.from_raw_full 65536 131072 196608).x.isSome := by
  have hb : GCodePosition.inI64 (GCodePosition.from_raw_full 65536 131072 196608) := by
    refine ⟨?_, ?_, ?_⟩ <;>
      (intro v hv;
       simp [GCodePosition.from_raw_full, GCodePosition.from_raw] at hv;
       subst hv;
       exact ⟨by decide, by decide⟩)
  have h := mul_div_presence_widening
    (GCodePosition.from_raw_full 65536 131072 196608) 2
    (GCodePosition.from_raw_full 131072 262144 393216) hb
  exact (h.1 (by decide)).1.1
